import Mathlib

/-!
Shallow embedding of the distrilock lock daemon core
(package `api`: enums and message records; package `core`:
`ProcessRequest`, `ProcessDisconnect`, `acquire`, `shortAcquire`,
`release`, `peek`, `verifyOwnership`).

Sessions (`*net.TCPConn`) and file handles (`*os.File`) are modelled as
natural numbers; the two registry maps `knownResources` and
`resourceAcquiredBy` are association lists; the filesystem is the set of
existing lock files plus the sets of open and locked handles. The
filesystem-lock adapter functions (`acquireLockDirect`, `releaseLock`,
`isUnlocked`) are not part of the sources; following the specification
they may return success, a contention errno, or another system error,
so each call takes a `SysEnv` record fixing the outcome of every system
call made during that call. A Go `panic` is modelled as `none`.
-/

namespace Distrilock

abbrev Session := Nat
abbrev Handle := Nat

/-- Protocol major version (package api). -/
def VersionMajor : Nat := 0

/-- Protocol minor version (package api). -/
def VersionMinor : Nat := 1

/-- `invalidCommand LockCommand = iota`: the uninitialised command value. -/
def invalidCommand : Nat := 0

/-- `Peek` command wire value (second `iota` constant). -/
def Peek : Nat := 1

/-- `Acquire` command wire value. -/
def Acquire : Nat := 2

/-- `Release` command wire value. -/
def Release : Nat := 3

/-- `Verify` command wire value. -/
def Verify : Nat := 4

/-- `LockCommandResult`: result enum of package api
(`invalidResult`, `Failed`, `Success`, `BadRequest`, `InternalError`). -/
inductive LockCommandResult where
  | invalidResult
  | Failed
  | Success
  | BadRequest
  | InternalError
  deriving DecidableEq, Repr

/-- `LockRequest`: a lock command request descriptor.
The command is kept as its `uint8` wire value. -/
structure LockRequest where
  VersionMajor : Nat
  VersionMinor : Nat
  Command : Nat
  LockName : String
  deriving DecidableEq, Repr

/-- `LockResponse`: echoes the request fields and carries result,
reason and the peek flag. -/
structure LockResponse where
  VersionMajor : Nat
  VersionMinor : Nat
  Command : Nat
  LockName : String
  Result : LockCommandResult
  Reason : String
  IsLocked : Bool
  deriving DecidableEq, Repr

/-- POSIX `EAGAIN` errno value. -/
def EAGAIN : Nat := 11

/-- POSIX `EACCES` errno value. -/
def EACCES : Nat := 13

/-- A Go `error` as the core inspects it: either a `syscall.Errno`
(with its numeric code and `Error()` text) or any other error. -/
inductive SysErr where
  | errno (e : Nat) (msg : String)
  | other (msg : String)
  deriving DecidableEq, Repr

/-- `err.Error()`. -/
def SysErr.message : SysErr → String
  | .errno _ msg => msg
  | .other msg => msg

/-- Modelled from the spec: outcomes of the system calls a single
command may perform (`os.OpenFile`, the adapter function `acquireLockDirect`
= TryExclusiveLock, `f.Write`, `releaseLock` = Unlock, `os.Remove`,
and `isUnlocked` = ProbeUnlocked). `none` means the call succeeds.
The adapter is absent from the sources; per §4.2 of the specification
a non-blocking lock attempt either acquires, fails with a contention
errno, or fails with another system error. -/
structure SysEnv where
  openErr : Option String
  lockErr : Option SysErr
  writeErr : Option String
  unlockErr : Option String
  removeErr : Option String
  probeErr : Option String
  probeUnlocked : Bool
  deriving DecidableEq, Repr

/-- The environment in which every system call succeeds. -/
def SysEnv.ok : SysEnv := ⟨none, none, none, none, none, none, true⟩

/-- The daemon state: the two registry maps guarded by
`knownResourcesLock`, plus the modelled filesystem (fresh-handle
counter, open handles, handles holding the advisory lock, lock files
present on disk, identified by their lock name). -/
structure ServerState where
  knownResources : List (String × Handle)
  resourceAcquiredBy : List (Handle × Session)
  nextHandle : Handle
  openHandles : List Handle
  lockedHandles : List Handle
  filesOnDisk : List String
  deriving DecidableEq, Repr

/-- The state of a freshly started daemon: empty registry, no files. -/
def initialState : ServerState := ⟨[], [], 0, [], [], []⟩

/-- Association-list lookup, the model of Go map indexing. -/
def lookup {α β : Type} [DecidableEq α] (k : α) : List (α × β) → Option β
  | [] => none
  | (a, b) :: rest => if a = k then some b else lookup k rest

/-- Association-list key removal, the model of Go `delete(m, k)`. -/
def eraseKey {α β : Type} [DecidableEq α] (k : α) : List (α × β) → List (α × β)
  | [] => []
  | (a, b) :: rest => if a = k then rest else (a, b) :: eraseKey k rest

/-- `f.Close()`: the handle is no longer open, and (POSIX fcntl
semantics) any advisory lock held through it is dropped. -/
def closeHandle (s : ServerState) (f : Handle) : ServerState :=
  { s with openHandles := s.openHandles.filter (fun h => decide (h ≠ f)),
           lockedHandles := s.lockedHandles.filter (fun h => decide (h ≠ f)) }

/-- `os.OpenFile(..., os.O_RDWR|os.O_CREATE, 0664)` creating the lock
file if absent. -/
def createFile (s : ServerState) (name : String) : ServerState :=
  { s with filesOnDisk :=
      if name ∈ s.filesOnDisk then s.filesOnDisk else name :: s.filesOnDisk }

/-- `validLockNameRx = regexp.MustCompile(ˆ[A-Za-z0-9.\-]+$)`:
a non-empty string of ASCII letters, digits, dots and dashes. -/
def validLockName (name : String) : Bool :=
  name != "" && name.data.all (fun c => c.isAlphanum || c == '.' || c == '-')

/-- `shortAcquire`: the registry already maps the lock name to handle
`f`; consult the back-reference. A missing back-reference is the
`BUG: missing resource acquired by record` panic, modelled as `none`.
The registry is not modified. -/
def shortAcquire (s : ServerState) (client : Session) (f : Handle) :
    Option (LockCommandResult × String) :=
  match lookup f s.resourceAcquiredBy with
  | none => none
  | some owner =>
    if owner ≠ client then some (.Failed, "resource acquired through a different session")
    else some (.Success, "no-op")

/-- `acquire`: look up under read lock, re-check under write lock, then
open, lock, write the diagnostic marker and insert the registry entry;
each failing system call closes the transient handle and reports. -/
def acquire (s : ServerState) (env : SysEnv) (client : Session) (lockName : String) :
    Option (LockCommandResult × String × ServerState) :=
  match lookup lockName s.knownResources with
  | some f =>
    match shortAcquire s client f with
    | none => none
    | some (r, reason) => some (r, reason, s)
  | none =>
    match lookup lockName s.knownResources with
    | some f =>
      match shortAcquire s client f with
      | none => none
      | some (r, reason) => some (r, reason, s)
    | none =>
      match env.openErr with
      | some msg => some (.InternalError, msg, s)
      | none =>
        let f := s.nextHandle
        let s1 := { createFile s lockName with
                      nextHandle := f + 1, openHandles := f :: s.openHandles }
        match env.lockErr with
        | some e =>
          let s2 := closeHandle s1 f
          match e with
          | .errno n _ =>
            if n = EAGAIN ∨ n = EACCES then
              some (.Failed, "resource acquired by different process", s2)
            else some (.InternalError, e.message, s2)
          | .other msg => some (.InternalError, msg, s2)
        | none =>
          let s2 := { s1 with lockedHandles := f :: s1.lockedHandles }
          match env.writeErr with
          | some msg => some (.InternalError, msg, closeHandle s2 f)
          | none =>
            some (.Success, "",
              { s2 with resourceAcquiredBy := (f, client) :: s2.resourceAcquiredBy,
                        knownResources := (lockName, f) :: s2.knownResources })

/-- `release`: read-lock check, write-lock re-check, then unlock, drop
both registry entries, close the handle and unlink the lock file. -/
def release (s : ServerState) (env : SysEnv) (client : Session) (lockName : String) :
    Option (LockCommandResult × String × ServerState) :=
  match lookup lockName s.knownResources with
  | none => some (.Failed, "lock not found", s)
  | some f =>
    match lookup f s.resourceAcquiredBy with
    | none => none
    | some owner =>
      if owner ≠ client then some (.Failed, "resource acquired through a different session", s)
      else
        match lookup lockName s.knownResources with
        | none => some (.Failed, "lock not found", s)
        | some f2 =>
          match lookup f2 s.resourceAcquiredBy with
          | none => none
          | some owner2 =>
            if owner2 ≠ client then
              some (.Failed, "resource acquired through a different session", s)
            else
              match env.unlockErr with
              | some msg => some (.InternalError, msg, s)
              | none =>
                let s1 := closeHandle
                  { s with knownResources := eraseKey lockName s.knownResources,
                           resourceAcquiredBy := eraseKey f2 s.resourceAcquiredBy } f2
                match env.removeErr with
                | some msg => some (.InternalError, msg, s1)
                | none =>
                  some (.Success, "",
                    { s1 with filesOnDisk :=
                        s1.filesOnDisk.filter (fun n => decide (n ≠ lockName)) })

/-- `peek`: report a held registry entry, a missing file, or probe the
advisory-lock state of the existing file through a transient handle. -/
def peek (s : ServerState) (env : SysEnv) (lockName : String) :
    LockCommandResult × String × Bool × ServerState :=
  match lookup lockName s.knownResources with
  | some _ => (.Success, "", true, s)
  | none =>
    if lockName ∉ s.filesOnDisk then (.Success, "", false, s)
    else
      match env.openErr with
      | some msg => (.InternalError, msg, false, s)
      | none =>
        let f := s.nextHandle
        let s1 := { s with nextHandle := f + 1, openHandles := f :: s.openHandles }
        let s2 := closeHandle s1 f
        match env.probeErr with
        | some msg => (.InternalError, msg, false, s2)
        | none => (.Success, "", !env.probeUnlocked, s2)

/-- `verifyOwnership`: read-lock check, write-lock re-check, then
re-invoke the non-blocking exclusive lock on the held handle. -/
def verifyOwnership (s : ServerState) (env : SysEnv) (client : Session) (lockName : String) :
    Option (LockCommandResult × String × ServerState) :=
  match lookup lockName s.knownResources with
  | none => some (.Failed, "lock not found", s)
  | some f =>
    match lookup f s.resourceAcquiredBy with
    | none => none
    | some owner =>
      if owner ≠ client then some (.Failed, "resource acquired through a different session", s)
      else
        match lookup lockName s.knownResources with
        | none => some (.Failed, "lock not found", s)
        | some f2 =>
          match lookup f2 s.resourceAcquiredBy with
          | none => none
          | some owner2 =>
            if owner2 ≠ client then
              some (.Failed, "resource acquired through a different session", s)
            else
              match env.lockErr with
              | some e =>
                match e with
                | .errno n _ =>
                  if n = EAGAIN ∨ n = EACCES then
                    some (.Failed, "resource acquired by different process", s)
                  else some (.InternalError, e.message, s)
                | .other msg => some (.InternalError, msg, s)
              | none =>
                some (.Success, "",
                  { s with lockedHandles :=
                      if f2 ∈ s.lockedHandles then s.lockedHandles
                      else f2 :: s.lockedHandles })

/-- The inner loop of `ProcessDisconnect`: delete from
`knownResources` the first entry whose handle equals `h` (the Go
`for ... break` reverse lookup). -/
def dropHandle (kr : List (String × Handle)) (h : Handle) : List (String × Handle) :=
  match kr with
  | [] => []
  | (n, f) :: rest => if f = h then rest else (n, f) :: dropHandle rest h

/-- `ProcessDisconnect`: under the write lock, close and drop every
handle whose owning session is the departing client, then remove the
corresponding name entries. Lock files stay on disk. -/
def ProcessDisconnect (s : ServerState) (client : Session) : ServerState :=
  let filesToDrop :=
    (s.resourceAcquiredBy.filter (fun p => decide (p.2 = client))).map Prod.fst
  { s with
      resourceAcquiredBy := s.resourceAcquiredBy.filter (fun p => decide (p.2 ≠ client)),
      knownResources := filesToDrop.foldl dropHandle s.knownResources,
      openHandles := s.openHandles.filter (fun h => decide (h ∉ filesToDrop)),
      lockedHandles := s.lockedHandles.filter (fun h => decide (h ∉ filesToDrop)) }

/-- Build the response: echo the request, override the version with the
own version of the server, and fill result, reason and the peek flag. -/
def echoResponse (req : LockRequest) (r : LockCommandResult) (reason : String)
    (isLocked : Bool) : LockResponse :=
  { VersionMajor := VersionMajor, VersionMinor := VersionMinor,
    Command := req.Command, LockName := req.LockName,
    Result := r, Reason := reason, IsLocked := isLocked }

/-- `ProcessRequest`: validate the lock name, then dispatch on the
command value; unknown commands (including the uninitialised value 0)
are BadRequest. `none` models a panic in the dispatched handler. -/
def ProcessRequest (s : ServerState) (env : SysEnv) (client : Session)
    (req : LockRequest) : Option (LockResponse × ServerState) :=
  if !(validLockName req.LockName) then
    some (echoResponse req .BadRequest "invalid lock name" false, s)
  else if req.Command = Acquire then
    match acquire s env client req.LockName with
    | none => none
    | some (r, reason, t) => some (echoResponse req r reason false, t)
  else if req.Command = Release then
    match release s env client req.LockName with
    | none => none
    | some (r, reason, t) => some (echoResponse req r reason false, t)
  else if req.Command = Peek then
    match peek s env req.LockName with
    | (r, reason, isLocked, t) => some (echoResponse req r reason isLocked, t)
  else if req.Command = Verify then
    match verifyOwnership s env client req.LockName with
    | none => none
    | some (r, reason, t) => some (echoResponse req r reason false, t)
  else
    some (echoResponse req .BadRequest "unknown command" false, s)

/-! ### Association-list lemmas -/

theorem lookup_nil {α β : Type} [DecidableEq α] (k : α) :
    lookup k ([] : List (α × β)) = none := rfl

theorem lookup_cons {α β : Type} [DecidableEq α] (k a : α) (b : β) (l : List (α × β)) :
    lookup k ((a, b) :: l) = if a = k then some b else lookup k l := rfl

theorem lookup_eq_none_iff {α β : Type} [DecidableEq α] (k : α) (l : List (α × β)) :
    lookup k l = none ↔ ∀ p ∈ l, p.1 ≠ k := by
  induction l with
  | nil => simp [lookup]
  | cons hd tl ih =>
    obtain ⟨a, b⟩ := hd
    by_cases h : a = k
    · subst h
      simp [lookup]
    · simp [lookup, h, ih]

theorem mem_of_lookup_eq_some {α β : Type} [DecidableEq α] {k : α} {v : β}
    {l : List (α × β)} (h : lookup k l = some v) : (k, v) ∈ l := by
  induction l with
  | nil => simp [lookup] at h
  | cons hd tl ih =>
    obtain ⟨a, b⟩ := hd
    by_cases hak : a = k
    · subst hak
      simp [lookup] at h
      simp [h]
    · simp only [lookup, if_neg hak] at h
      exact List.mem_cons_of_mem _ (ih h)

theorem lookup_of_mem_nodup {α β : Type} [DecidableEq α] {l : List (α × β)}
    (hnd : (l.map Prod.fst).Nodup) {p : α × β} (hp : p ∈ l) :
    lookup p.1 l = some p.2 := by
  induction l with
  | nil => cases hp
  | cons hd tl ih =>
    obtain ⟨a, b⟩ := hd
    rw [List.map_cons, List.nodup_cons] at hnd
    rcases List.mem_cons.mp hp with h | h
    · subst h
      simp [lookup]
    · have hne : a ≠ p.1 := fun he => hnd.1 (List.mem_map.mpr ⟨p, h, he.symm⟩)
      simp only [lookup, if_neg hne]
      exact ih hnd.2 h

theorem eraseKey_sublist {α β : Type} [DecidableEq α] (k : α) (l : List (α × β)) :
    List.Sublist (eraseKey k l) l := by
  induction l with
  | nil => simp [eraseKey]
  | cons hd tl ih =>
    obtain ⟨a, b⟩ := hd
    by_cases h : a = k
    · simp only [eraseKey, if_pos h]
      exact (List.Sublist.refl tl).cons (a, b)
    · simp only [eraseKey, if_neg h]
      exact ih.cons₂ (a, b)

theorem mem_eraseKey_nodup {α β : Type} [DecidableEq α] {l : List (α × β)}
    (hnd : (l.map Prod.fst).Nodup) {k : α} {p : α × β} (hp : p ∈ eraseKey k l) :
    p ∈ l ∧ p.1 ≠ k := by
  induction l with
  | nil => simp [eraseKey] at hp
  | cons hd tl ih =>
    obtain ⟨a, b⟩ := hd
    rw [List.map_cons, List.nodup_cons] at hnd
    by_cases h : a = k
    · subst h
      simp only [eraseKey, if_pos rfl] at hp
      simp at hp
      refine ⟨List.mem_cons_of_mem _ hp, ?_⟩
      intro he
      exact hnd.1 (List.mem_map.mpr ⟨p, hp, he⟩)
    · simp only [eraseKey, if_neg h] at hp
      rcases List.mem_cons.mp hp with h2 | h2
      · subst h2
        exact ⟨List.mem_cons_self _ _, h⟩
      · obtain ⟨h3, h4⟩ := ih hnd.2 h2
        exact ⟨List.mem_cons_of_mem _ h3, h4⟩

theorem lookup_eraseKey_self {α β : Type} [DecidableEq α] {l : List (α × β)}
    (hnd : (l.map Prod.fst).Nodup) (k : α) :
    lookup k (eraseKey k l) = none := by
  rw [lookup_eq_none_iff]
  intro p hp
  exact (mem_eraseKey_nodup hnd hp).2

theorem lookup_eraseKey_ne {α β : Type} [DecidableEq α] {k k' : α} (hne : k ≠ k')
    (l : List (α × β)) : lookup k (eraseKey k' l) = lookup k l := by
  induction l with
  | nil => rfl
  | cons hd tl ih =>
    obtain ⟨a, b⟩ := hd
    by_cases h : a = k'
    · have hak : a ≠ k := fun he => hne (he ▸ h)
      simp [eraseKey, h, lookup, hak, Ne.symm hne]
    · by_cases h2 : a = k
      · subst h2
        simp [eraseKey, h, lookup]
      · simp [eraseKey, h, lookup, h2, ih]

theorem lookup_filter_some {α β : Type} [DecidableEq α] {l : List (α × β)} {k : α} {v : β}
    {q : α × β → Bool} (hl : lookup k l = some v) (hq : q (k, v) = true) :
    lookup k (l.filter q) = some v := by
  induction l with
  | nil => simp [lookup] at hl
  | cons hd tl ih =>
    obtain ⟨a, b⟩ := hd
    by_cases hak : a = k
    · subst hak
      simp [lookup] at hl
      subst hl
      simp [List.filter_cons, hq, lookup]
    · simp only [lookup, if_neg hak] at hl
      by_cases hqa : q (a, b) = true
      · simp [List.filter_cons, hqa, lookup, hak, ih hl]
      · simp only [List.filter_cons, if_neg hqa]
        simp at hqa
        simp [hqa, ih hl]

theorem dropHandle_eq_filter (kr : List (String × Handle)) (h : Handle)
    (hnd : (kr.map Prod.snd).Nodup) :
    dropHandle kr h = kr.filter (fun p => decide (p.2 ≠ h)) := by
  induction kr with
  | nil => rfl
  | cons hd tl ih =>
    obtain ⟨n, f⟩ := hd
    rw [List.map_cons, List.nodup_cons] at hnd
    by_cases hf : f = h
    · subst hf
      have hfilter : tl.filter (fun p => decide (p.2 ≠ f)) = tl :=
        List.filter_eq_self.mpr (fun p hp => by
          simp only [decide_eq_true_iff]
          intro he
          exact hnd.1 (List.mem_map.mpr ⟨p, hp, he⟩))
      have h1 : dropHandle ((n, f) :: tl) f = tl := by simp [dropHandle]
      have h2 : List.filter (fun p => decide (p.2 ≠ f)) ((n, f) :: tl)
          = List.filter (fun p => decide (p.2 ≠ f)) tl := by
        rw [List.filter_cons]
        simp
      rw [h1, h2, hfilter]
    · simp [dropHandle, hf, List.filter_cons, ih hnd.2]

theorem foldl_dropHandle_eq_filter (hs : List Handle) (kr : List (String × Handle))
    (hnd : (kr.map Prod.snd).Nodup) :
    hs.foldl dropHandle kr = kr.filter (fun p => decide (p.2 ∉ hs)) := by
  induction hs generalizing kr with
  | nil => simp
  | cons h hs ih =>
    rw [List.foldl_cons, dropHandle_eq_filter kr h hnd]
    have hnd2 : ((kr.filter (fun p => decide (p.2 ≠ h))).map Prod.snd).Nodup :=
      hnd.sublist ((List.filter_sublist kr).map Prod.snd)
    rw [ih _ hnd2, List.filter_filter]
    apply List.filter_congr
    intro p hp
    by_cases h1 : p.2 = h <;> by_cases h2 : p.2 ∈ hs <;>
      simp [h1, h2, List.mem_cons]

/-! ### Claim theorems -/

/-- C1: mutual exclusion across sessions. If the registry maps name `N`
to a handle owned by session `S1` and `S2` is a different session, then
`acquire` for `S2` returns `Failed` with reason
"resource acquired through a different session" and returns the state
unchanged, for every system-call environment. -/
theorem acquire_other_session_failed (s : ServerState) (env : SysEnv)
    (S1 S2 : Session) (N : String) (f : Handle)
    (hkr : lookup N s.knownResources = some f)
    (hrab : lookup f s.resourceAcquiredBy = some S1)
    (hne : S1 ≠ S2) :
    acquire s env S2 N =
      some (.Failed, "resource acquired through a different session", s) := by
  simp [acquire, hkr, shortAcquire, hrab, hne]

/-- Witness for C1: session 2 cannot acquire the lock held by session 1. -/
theorem acquire_other_session_failed_witness :
    acquire ⟨[("res", 0)], [(0, 1)], 1, [0], [0], ["res"]⟩ SysEnv.ok 2 "res" =
      some (.Failed, "resource acquired through a different session",
        ⟨[("res", 0)], [(0, 1)], 1, [0], [0], ["res"]⟩) :=
  acquire_other_session_failed _ _ 1 2 "res" 0 (by decide) (by decide) (by decide)

/-- C2: reentrant acquire is an idempotent no-op. If the registry maps
name `N` to a handle owned by session `S`, a further `acquire` by `S`
returns `Success` with reason "no-op" and the state is returned
identical to the pre-call state — in particular `nextHandle` and
`openHandles` are unchanged, so no file was opened again. -/
theorem acquire_reentrant_noop (s : ServerState) (env : SysEnv)
    (S : Session) (N : String) (f : Handle)
    (hkr : lookup N s.knownResources = some f)
    (hrab : lookup f s.resourceAcquiredBy = some S) :
    acquire s env S N = some (.Success, "no-op", s) := by
  simp [acquire, hkr, shortAcquire, hrab]

/-- Witness for C2: session 1 re-acquires its own lock as a no-op. -/
theorem acquire_reentrant_noop_witness :
    acquire ⟨[("res", 0)], [(0, 1)], 1, [0], [0], ["res"]⟩ SysEnv.ok 1 "res" =
      some (.Success, "no-op", ⟨[("res", 0)], [(0, 1)], 1, [0], [0], ["res"]⟩) :=
  acquire_reentrant_noop _ _ 1 "res" 0 (by decide) (by decide)

/-- C5 counterexample: the claimed wire values Peek=2, Acquire=3,
Release=4, Verify=5 do not hold (the `iota` block yields Peek=1,
Acquire=2, Release=3, Verify=4), and command value 1 is not rejected
as BadRequest: on the empty state with valid lock name "a" it is
dispatched as Peek and answers `Success`. -/
theorem command_enum_cex :
    ¬ (Peek = 2 ∧ Acquire = 3 ∧ Release = 4 ∧ Verify = 5) ∧
    ProcessRequest initialState SysEnv.ok 0 ⟨0, 0, 1, "a"⟩ =
      some (⟨0, 1, 1, "a", .Success, "", false⟩, initialState) := by
  constructor
  · intro h
    exact absurd h.1 (by decide)
  · decide

/-- C5 amended: the wire commands are Peek=1, Acquire=2, Release=3,
Verify=4; value 0 is the uninitialised sentinel and, like every value
≥ 5, is rejected as BadRequest (reason "unknown command") for every
request with a valid lock name, leaving the state unchanged. -/
theorem command_enum_values (s : ServerState) (env : SysEnv) (client : Session)
    (req : LockRequest) (hname : validLockName req.LockName = true)
    (hcmd : req.Command = 0 ∨ 5 ≤ req.Command) :
    invalidCommand = 0 ∧ Peek = 1 ∧ Acquire = 2 ∧ Release = 3 ∧ Verify = 4 ∧
    ProcessRequest s env client req =
      some (echoResponse req .BadRequest "unknown command" false, s) := by
  refine ⟨rfl, rfl, rfl, rfl, rfl, ?_⟩
  have h1 : req.Command ≠ Peek := by rcases hcmd with h | h <;> simp [Peek] <;> omega
  have h2 : req.Command ≠ Acquire := by rcases hcmd with h | h <;> simp [Acquire] <;> omega
  have h3 : req.Command ≠ Release := by rcases hcmd with h | h <;> simp [Release] <;> omega
  have h4 : req.Command ≠ Verify := by rcases hcmd with h | h <;> simp [Verify] <;> omega
  simp [ProcessRequest, hname, h1, h2, h3, h4]

/-- Witness for C5 amended: command 0 on the empty state is rejected. -/
theorem command_enum_values_witness :
    invalidCommand = 0 ∧ Peek = 1 ∧ Acquire = 2 ∧ Release = 3 ∧ Verify = 4 ∧
    ProcessRequest initialState SysEnv.ok 0 ⟨0, 0, 0, "a"⟩ =
      some (echoResponse ⟨0, 0, 0, "a"⟩ .BadRequest "unknown command" false,
        initialState) :=
  command_enum_values initialState SysEnv.ok 0 ⟨0, 0, 0, "a"⟩ (by decide)
    (Or.inl rfl)

/-- C6: lock-name validation is total and state-independent. For every
request whose lock name fails the `^[A-Za-z0-9.\-]+$` check, every
command returns BadRequest with reason "invalid lock name" and the
state — registry and filesystem — is returned unchanged. -/
theorem invalid_name_bad_request (s : ServerState) (env : SysEnv) (client : Session)
    (req : LockRequest) (hname : validLockName req.LockName = false) :
    ProcessRequest s env client req =
      some (echoResponse req .BadRequest "invalid lock name" false, s) := by
  simp [ProcessRequest, hname]

/-- Witness for C6: an underscore name is rejected on a non-empty state. -/
theorem invalid_name_bad_request_witness :
    ProcessRequest ⟨[("res", 0)], [(0, 1)], 1, [0], [0], ["res"]⟩ SysEnv.ok 2
        ⟨0, 0, 2, "a_b"⟩ =
      some (echoResponse ⟨0, 0, 2, "a_b"⟩ .BadRequest "invalid lock name" false,
        ⟨[("res", 0)], [(0, 1)], 1, [0], [0], ["res"]⟩) :=
  invalid_name_bad_request _ _ _ _ (by decide)

/-- C4: release is final and non-idempotent. With no registry entry for
`N`, `release` returns `Failed` "lock not found" and leaves the state
unchanged; after a `Success` release the registry entry is gone, the
lock file is unlinked, and an immediately following `release` returns
`Failed` "lock not found" (under any environment) with the state
unchanged. -/
theorem release_not_found_final (s : ServerState) (env env2 : SysEnv)
    (S : Session) (N : String)
    (hnd : (s.knownResources.map Prod.fst).Nodup) :
    (lookup N s.knownResources = none →
      release s env S N = some (.Failed, "lock not found", s)) ∧
    (∀ t, release s env S N = some (.Success, "", t) →
      lookup N t.knownResources = none ∧ N ∉ t.filesOnDisk ∧
      release t env2 S N = some (.Failed, "lock not found", t)) := by
  constructor
  · intro h
    simp [release, h]
  · intro t hrel
    cases hk : lookup N s.knownResources with
    | none => simp [release, hk] at hrel
    | some f =>
      cases hr : lookup f s.resourceAcquiredBy with
      | none => simp [release, hk, hr] at hrel
      | some owner =>
        by_cases ho : owner = S
        · subst ho
          cases hu : env.unlockErr with
          | some m => simp [release, hk, hr, hu] at hrel
          | none =>
            cases hrm : env.removeErr with
            | some m => simp [release, hk, hr, hu, hrm] at hrel
            | none =>
              simp [release, hk, hr, hu, hrm, closeHandle] at hrel
              subst hrel
              refine ⟨lookup_eraseKey_self hnd N, by simp, ?_⟩
              simp [release, lookup_eraseKey_self hnd N]
        · simp [release, hk, hr, ho] at hrel

/-- Witness for C4: releasing a held lock, then releasing again. -/
theorem release_not_found_final_witness :
    release (⟨[], [], 1, [], [], []⟩ : ServerState) SysEnv.ok 1 "res" =
      some (.Failed, "lock not found", (⟨[], [], 1, [], [], []⟩ : ServerState)) ∧
    release (⟨[("res", 0)], [(0, 1)], 1, [0], [0], ["res"]⟩ : ServerState)
        SysEnv.ok 1 "res" = some (.Success, "", ⟨[], [], 1, [], [], []⟩) :=
  ⟨(release_not_found_final ⟨[], [], 1, [], [], []⟩ SysEnv.ok SysEnv.ok 1 "res"
      (by decide)).1 (by decide),
   by decide⟩

/-- The state after a fresh `acquire` of absent name `N` fails at the
lock, at the write, or is contended: the lock file was created by the
open, the transient handle number was consumed and the handle closed,
and the registry maps are untouched. -/
def failedAcquireState (s : ServerState) (N : String) : ServerState :=
  { createFile s N with
      nextHandle := s.nextHandle + 1,
      openHandles := s.openHandles.filter (fun h => decide (h ≠ s.nextHandle)),
      lockedHandles := s.lockedHandles.filter (fun h => decide (h ≠ s.nextHandle)) }

/-- C8: acquire contention and error handling. With no registry entry
for `N`: an open error is reported as InternalError with the error
text and no handle is opened; a lock failure with errno EAGAIN or
EACCES yields `Failed` "resource acquired by different process"; a
lock failure with any other errno, a non-errno lock error, or a write
error yields InternalError carrying the error text; in each of the
failing cases after the open, the transient handle is closed and the
registry maps are unchanged. -/
theorem acquire_error_paths (s : ServerState) (env : SysEnv) (S : Session)
    (N : String) (hkr : lookup N s.knownResources = none) :
    (∀ m, env.openErr = some m → acquire s env S N = some (.InternalError, m, s)) ∧
    (∀ e m, env.openErr = none → env.lockErr = some (.errno e m) →
      e = EAGAIN ∨ e = EACCES →
      acquire s env S N = some (.Failed, "resource acquired by different process",
        failedAcquireState s N)) ∧
    (∀ e m, env.openErr = none → env.lockErr = some (.errno e m) →
      ¬(e = EAGAIN ∨ e = EACCES) →
      acquire s env S N = some (.InternalError, m, failedAcquireState s N)) ∧
    (∀ m, env.openErr = none → env.lockErr = some (.other m) →
      acquire s env S N = some (.InternalError, m, failedAcquireState s N)) ∧
    (∀ m, env.openErr = none → env.lockErr = none → env.writeErr = some m →
      acquire s env S N = some (.InternalError, m, failedAcquireState s N)) ∧
    (failedAcquireState s N).knownResources = s.knownResources ∧
    (failedAcquireState s N).resourceAcquiredBy = s.resourceAcquiredBy ∧
    s.nextHandle ∉ (failedAcquireState s N).openHandles ∧
    s.nextHandle ∉ (failedAcquireState s N).lockedHandles := by
  refine ⟨?_, ?_, ?_, ?_, ?_, rfl, rfl, by simp [failedAcquireState], by
    simp [failedAcquireState]⟩
  · intro m hm
    simp [acquire, hkr, hm]
  · intro e m ho hl he
    simp [acquire, hkr, ho, hl, he, closeHandle, createFile,
      failedAcquireState, List.filter_cons]
  · intro e m ho hl he
    simp [acquire, hkr, ho, hl, he, SysErr.message, closeHandle, createFile,
      failedAcquireState, List.filter_cons]
  · intro m ho hl
    simp [acquire, hkr, ho, hl, closeHandle, createFile, failedAcquireState,
      List.filter_cons]
  · intro m ho hl hw
    simp [acquire, hkr, ho, hl, hw, closeHandle, createFile,
      failedAcquireState, List.filter_cons]

/-- Witness for C8: a contended EAGAIN acquire on the empty state. -/
theorem acquire_error_paths_witness :
    acquire initialState ⟨none, some (.errno 11 "try again"), none, none, none,
        none, true⟩ 5 "a" =
      some (.Failed, "resource acquired by different process",
        failedAcquireState initialState "a") :=
  (acquire_error_paths initialState
      ⟨none, some (.errno 11 "try again"), none, none, none, none, true⟩ 5 "a"
      (by decide)).2.1 11 "try again" rfl rfl (Or.inl rfl)

/-- C9: peek is side-effect-free on the registry. For every name and
state, the registry maps and the set of lock files after `peek` equal
those before it (`peek` takes no session argument by its type); a
second `peek` run from the post-state yields the same result, reason
and is-locked flag; a held registry entry reports `Success` with
is-locked true, and an absent entry with no lock file on disk reports
`Success` with is-locked false. -/
theorem peek_registry_pure (s : ServerState) (env : SysEnv) (N : String) :
    (peek s env N).2.2.2.knownResources = s.knownResources ∧
    (peek s env N).2.2.2.resourceAcquiredBy = s.resourceAcquiredBy ∧
    (peek s env N).2.2.2.filesOnDisk = s.filesOnDisk ∧
    (peek ((peek s env N).2.2.2) env N).1 = (peek s env N).1 ∧
    (peek ((peek s env N).2.2.2) env N).2.1 = (peek s env N).2.1 ∧
    (peek ((peek s env N).2.2.2) env N).2.2.1 = (peek s env N).2.2.1 ∧
    (∀ f, lookup N s.knownResources = some f →
      (peek s env N).1 = .Success ∧ (peek s env N).2.2.1 = true) ∧
    (lookup N s.knownResources = none → N ∉ s.filesOnDisk →
      (peek s env N).1 = .Success ∧ (peek s env N).2.2.1 = false) := by
  cases hk : lookup N s.knownResources with
  | some f => simp [peek, hk]
  | none =>
    by_cases hf : N ∈ s.filesOnDisk
    · cases ho : env.openErr with
      | some m => simp [peek, hk, hf, ho]
      | none =>
        cases hp : env.probeErr with
        | some m => simp [peek, hk, hf, ho, hp, closeHandle]
        | none => simp [peek, hk, hf, ho, hp, closeHandle]
    · simp [peek, hk, hf]

/-- Witness for C9: peeking a held entry answers locked. -/
theorem peek_registry_pure_witness :
    (peek ⟨[("res", 0)], [(0, 1)], 1, [0], [0], ["res"]⟩ SysEnv.ok "res").1
        = .Success ∧
    (peek ⟨[("res", 0)], [(0, 1)], 1, [0], [0], ["res"]⟩ SysEnv.ok "res").2.2.1
        = true :=
  (peek_registry_pure ⟨[("res", 0)], [(0, 1)], 1, [0], [0], ["res"]⟩
    SysEnv.ok "res").2.2.2.2.2.2.1 0 (by decide)

/-- C3 counterexample: Verify/Acquire equivalence fails as stated.
In the state where session 1 owns name "res" through handle 0 (so a
reentrant acquire would return `Success`), a `verifyOwnership` whose
OS re-lock attempt fails with EAGAIN returns `Failed`, not `Success`,
even though the registry holds the entry owned by the caller. -/
theorem verify_iff_cex :
    lookup "res"
        ((⟨[("res", 0)], [(0, 1)], 1, [0], [0], ["res"]⟩ : ServerState)).knownResources
        = some 0 ∧
    lookup 0
        ((⟨[("res", 0)], [(0, 1)], 1, [0], [0], ["res"]⟩ : ServerState)).resourceAcquiredBy
        = some 1 ∧
    acquire (⟨[("res", 0)], [(0, 1)], 1, [0], [0], ["res"]⟩ : ServerState)
        (⟨none, some (.errno 11 "try again"), none, none, none, none, true⟩ : SysEnv)
        1 "res" =
      some (.Success, "no-op",
        ⟨[("res", 0)], [(0, 1)], 1, [0], [0], ["res"]⟩) ∧
    verifyOwnership (⟨[("res", 0)], [(0, 1)], 1, [0], [0], ["res"]⟩ : ServerState)
        (⟨none, some (.errno 11 "try again"), none, none, none, none, true⟩ : SysEnv)
        1 "res" =
      some (.Failed, "resource acquired by different process",
        ⟨[("res", 0)], [(0, 1)], 1, [0], [0], ["res"]⟩) := by
  refine ⟨by decide, by decide, by decide, by decide⟩

/-- C3 amended: `verifyOwnership` returns `Success` iff the registry
holds an entry for the name owned by the calling session AND the
re-invoked OS lock attempt raises no error; in particular Verify
`Success` always implies ownership, and whenever the re-lock succeeds
(the normal case, the process already holding the advisory lock),
Verify `Success` is exactly ownership — i.e. exactly the condition
under which `acquire` would return `Success` by virtue of the session
already owning the entry. -/
theorem verify_success_iff (s : ServerState) (env : SysEnv) (S : Session)
    (N : String) :
    (∃ r t, verifyOwnership s env S N = some (.Success, r, t)) ↔
      (env.lockErr = none ∧
        ∃ f, lookup N s.knownResources = some f ∧
          lookup f s.resourceAcquiredBy = some S) := by
  cases hk : lookup N s.knownResources with
  | none => simp [verifyOwnership, hk]
  | some f =>
    cases hr : lookup f s.resourceAcquiredBy with
    | none => simp [verifyOwnership, hk, hr]
    | some owner =>
      by_cases ho : owner = S
      · subst ho
        cases he : env.lockErr with
        | none => simp [verifyOwnership, hk, hr, he]
        | some e =>
          cases e with
          | errno n m =>
            by_cases hn : n = EAGAIN ∨ n = EACCES
            · simp [verifyOwnership, hk, hr, he, hn]
            · simp [verifyOwnership, hk, hr, he, hn]
          | other m => simp [verifyOwnership, hk, hr, he]
      · simp [verifyOwnership, hk, hr, ho]

/-- The handles dropped by `ProcessDisconnect` for session `c` are
exactly those whose back-reference names `c`, provided the
handle-index keys are distinct. -/
theorem mem_filesToDrop_iff (s : ServerState) (c : Session)
    (hrk : (s.resourceAcquiredBy.map Prod.fst).Nodup) (h : Handle) :
    h ∈ (s.resourceAcquiredBy.filter (fun p => decide (p.2 = c))).map Prod.fst ↔
      lookup h s.resourceAcquiredBy = some c := by
  constructor
  · intro hh
    rcases List.mem_map.mp hh with ⟨q, hq, hq1⟩
    rcases List.mem_filter.mp hq with ⟨hq2, hq3⟩
    have hlq := lookup_of_mem_nodup hrk hq2
    rw [hq1] at hlq
    rw [hlq]
    simp only [decide_eq_true_iff] at hq3
    rw [hq3]
  · intro hh
    have hmem := mem_of_lookup_eq_some hh
    exact List.mem_map.mpr ⟨(h, c), List.mem_filter.mpr ⟨hmem, by simp⟩, rfl⟩

/-- C7: `ProcessDisconnect` removes exactly the entries of the
departing session. After it, no back-reference names the departing session;
every name entry whose owner was a different session survives with its
owner intact; every name entry owned by the departing session is gone
and its handle is neither open nor locked any more (closed, hence the
advisory lock dropped); and no lock file is removed from disk. -/
theorem disconnect_removes_exactly (s : ServerState) (c : Session)
    (hkv : (s.knownResources.map Prod.snd).Nodup)
    (hrk : (s.resourceAcquiredBy.map Prod.fst).Nodup) :
    (∀ p ∈ (ProcessDisconnect s c).resourceAcquiredBy, p.2 ≠ c) ∧
    (∀ p ∈ s.knownResources, ∀ d, lookup p.2 s.resourceAcquiredBy = some d →
      d ≠ c → p ∈ (ProcessDisconnect s c).knownResources ∧
        lookup p.2 (ProcessDisconnect s c).resourceAcquiredBy = some d) ∧
    (∀ p ∈ s.knownResources, lookup p.2 s.resourceAcquiredBy = some c →
      p ∉ (ProcessDisconnect s c).knownResources ∧
      p.2 ∉ (ProcessDisconnect s c).openHandles ∧
      p.2 ∉ (ProcessDisconnect s c).lockedHandles) ∧
    (ProcessDisconnect s c).filesOnDisk = s.filesOnDisk := by
  have hkr : (ProcessDisconnect s c).knownResources =
      s.knownResources.filter (fun p => decide (p.2 ∉
        (s.resourceAcquiredBy.filter (fun q => decide (q.2 = c))).map Prod.fst)) := by
    simp only [ProcessDisconnect]
    exact foldl_dropHandle_eq_filter _ _ hkv
  refine ⟨?_, ?_, ?_, rfl⟩
  · intro p hp
    simp only [ProcessDisconnect, List.mem_filter, decide_eq_true_iff] at hp
    exact hp.2
  · intro p hp d hd hdc
    have hnot : p.2 ∉
        (s.resourceAcquiredBy.filter (fun q => decide (q.2 = c))).map Prod.fst := by
      intro hcon
      have := (mem_filesToDrop_iff s c hrk p.2).mp hcon
      rw [hd] at this
      exact hdc (Option.some.inj this)
    constructor
    · rw [hkr]
      exact List.mem_filter.mpr ⟨hp, by simpa using hnot⟩
    · show lookup p.2
        (s.resourceAcquiredBy.filter (fun q => decide (q.2 ≠ c))) = some d
      exact lookup_filter_some hd (by simpa using hdc)
  · intro p hp hc
    have hin : p.2 ∈
        (s.resourceAcquiredBy.filter (fun q => decide (q.2 = c))).map Prod.fst :=
      (mem_filesToDrop_iff s c hrk p.2).mpr hc
    refine ⟨?_, ?_, ?_⟩
    · rw [hkr]
      intro hcon
      exact absurd hin (by simpa using (List.mem_filter.mp hcon).2)
    · intro hcon
      simp only [ProcessDisconnect, List.mem_filter, decide_eq_true_iff] at hcon
      exact hcon.2 hin
    · intro hcon
      simp only [ProcessDisconnect, List.mem_filter, decide_eq_true_iff] at hcon
      exact hcon.2 hin

/-- Witness for C7: disconnecting session 1 removes its entry for "a"
(handle 0 closed and unlocked) in a two-session state. -/
theorem disconnect_removes_exactly_witness :
    ("a", 0) ∉ (ProcessDisconnect
        ⟨[("a", 0), ("b", 1)], [(0, 1), (1, 2)], 2, [0, 1], [0, 1], ["a", "b"]⟩
        1).knownResources ∧
    (("a", 0) : String × Handle).2 ∉ (ProcessDisconnect
        ⟨[("a", 0), ("b", 1)], [(0, 1), (1, 2)], 2, [0, 1], [0, 1], ["a", "b"]⟩
        1).openHandles ∧
    (("a", 0) : String × Handle).2 ∉ (ProcessDisconnect
        ⟨[("a", 0), ("b", 1)], [(0, 1), (1, 2)], 2, [0, 1], [0, 1], ["a", "b"]⟩
        1).lockedHandles :=
  (disconnect_removes_exactly
      ⟨[("a", 0), ("b", 1)], [(0, 1), (1, 2)], 2, [0, 1], [0, 1], ["a", "b"]⟩ 1
      (by decide) (by decide)).2.2.1 ("a", 0) (by decide) (by decide)

/-! ### Registry invariant, reachability, absence of panics -/

/-- The registry coherence invariant: distinct names and distinct
handles in the name index, distinct keys in the back-reference index;
every handle stored in `knownResources` has an owning-session entry in
`resourceAcquiredBy` (the property whose failure would hit the
`BUG: missing resource acquired by record` panics); and every recorded
handle is below the fresh-handle counter. -/
def Inv (s : ServerState) : Prop :=
  (s.knownResources.map Prod.fst).Nodup ∧
  (s.knownResources.map Prod.snd).Nodup ∧
  (s.resourceAcquiredBy.map Prod.fst).Nodup ∧
  (∀ p ∈ s.knownResources, (lookup p.2 s.resourceAcquiredBy).isSome = true) ∧
  (∀ p ∈ s.knownResources, p.2 < s.nextHandle) ∧
  (∀ p ∈ s.resourceAcquiredBy, p.1 < s.nextHandle)

theorem inv_initial : Inv initialState := by
  refine ⟨?_, ?_, ?_, ?_, ?_, ?_⟩ <;> simp [initialState]

/-- The invariant only depends on the registry maps and the counter. -/
theorem inv_of_eq (s t : ServerState) (h : Inv s)
    (hkr : t.knownResources = s.knownResources)
    (hrab : t.resourceAcquiredBy = s.resourceAcquiredBy)
    (hn : s.nextHandle ≤ t.nextHandle) : Inv t := by
  obtain ⟨h1, h2, h3, h4, h5, h6⟩ := h
  refine ⟨?_, ?_, ?_, ?_, ?_, ?_⟩
  · rw [hkr]; exact h1
  · rw [hkr]; exact h2
  · rw [hrab]; exact h3
  · rw [hkr, hrab]; exact h4
  · rw [hkr]
    intro p hp
    exact lt_of_lt_of_le (h5 p hp) hn
  · rw [hrab]
    intro p hp
    exact lt_of_lt_of_le (h6 p hp) hn

/-- Inserting a fresh handle for an absent name preserves every
component of the invariant. -/
theorem inv_insert (s : ServerState) (S : Session) (N : String) (h : Inv s)
    (hk : lookup N s.knownResources = none) :
    (((N, s.nextHandle) :: s.knownResources).map Prod.fst).Nodup ∧
    (((N, s.nextHandle) :: s.knownResources).map Prod.snd).Nodup ∧
    (((s.nextHandle, S) :: s.resourceAcquiredBy).map Prod.fst).Nodup ∧
    (∀ p ∈ (N, s.nextHandle) :: s.knownResources,
      (lookup p.2 ((s.nextHandle, S) :: s.resourceAcquiredBy)).isSome = true) ∧
    (∀ p ∈ (N, s.nextHandle) :: s.knownResources, p.2 < s.nextHandle + 1) ∧
    (∀ p ∈ (s.nextHandle, S) :: s.resourceAcquiredBy, p.1 < s.nextHandle + 1) := by
  obtain ⟨h1, h2, h3, h4, h5, h6⟩ := h
  have hN : ∀ p ∈ s.knownResources, p.1 ≠ N :=
    (lookup_eq_none_iff N s.knownResources).mp hk
  refine ⟨?_, ?_, ?_, ?_, ?_, ?_⟩
  · rw [List.map_cons, List.nodup_cons]
    refine ⟨?_, h1⟩
    intro hcon
    rcases List.mem_map.mp hcon with ⟨p, hp, hp1⟩
    exact hN p hp hp1
  · rw [List.map_cons, List.nodup_cons]
    refine ⟨?_, h2⟩
    intro hcon
    rcases List.mem_map.mp hcon with ⟨p, hp, hp1⟩
    exact absurd hp1 (Nat.ne_of_lt (h5 p hp))
  · rw [List.map_cons, List.nodup_cons]
    refine ⟨?_, h3⟩
    intro hcon
    rcases List.mem_map.mp hcon with ⟨p, hp, hp1⟩
    exact absurd hp1 (Nat.ne_of_lt (h6 p hp))
  · intro p hp
    rcases List.mem_cons.mp hp with h7 | h7
    · subst h7
      simp [lookup]
    · have hne : s.nextHandle ≠ p.2 := Ne.symm (Nat.ne_of_lt (h5 p h7))
      rw [lookup_cons, if_neg hne]
      exact h4 p h7
  · intro p hp
    rcases List.mem_cons.mp hp with h7 | h7
    · subst h7
      exact Nat.lt_succ_self _
    · exact Nat.lt_succ_of_lt (h5 p h7)
  · intro p hp
    rcases List.mem_cons.mp hp with h7 | h7
    · subst h7
      exact Nat.lt_succ_self _
    · exact Nat.lt_succ_of_lt (h6 p h7)

/-- Deleting the entry of name `N` (handle `f`) from both indices
preserves every component of the invariant. -/
theorem inv_erase (s : ServerState) (f : Handle) (N : String) (h : Inv s)
    (hk : lookup N s.knownResources = some f) :
    ((eraseKey N s.knownResources).map Prod.fst).Nodup ∧
    ((eraseKey N s.knownResources).map Prod.snd).Nodup ∧
    ((eraseKey f s.resourceAcquiredBy).map Prod.fst).Nodup ∧
    (∀ p ∈ eraseKey N s.knownResources,
      (lookup p.2 (eraseKey f s.resourceAcquiredBy)).isSome = true) ∧
    (∀ p ∈ eraseKey N s.knownResources, p.2 < s.nextHandle) ∧
    (∀ p ∈ eraseKey f s.resourceAcquiredBy, p.1 < s.nextHandle) := by
  obtain ⟨h1, h2, h3, h4, h5, h6⟩ := h
  have hNf : (N, f) ∈ s.knownResources := mem_of_lookup_eq_some hk
  refine ⟨?_, ?_, ?_, ?_, ?_, ?_⟩
  · exact h1.sublist ((eraseKey_sublist N s.knownResources).map Prod.fst)
  · exact h2.sublist ((eraseKey_sublist N s.knownResources).map Prod.snd)
  · exact h3.sublist ((eraseKey_sublist f s.resourceAcquiredBy).map Prod.fst)
  · intro p hp
    obtain ⟨hpmem, hpne⟩ := mem_eraseKey_nodup h1 hp
    have hne : p.2 ≠ f := by
      intro he
      have hpe : p = (N, f) := List.inj_on_of_nodup_map h2 hpmem hNf he
      exact hpne (by rw [hpe])
    rw [lookup_eraseKey_ne hne]
    exact h4 p hpmem
  · intro p hp
    exact h5 p (mem_eraseKey_nodup h1 hp).1
  · intro p hp
    exact h6 p ((eraseKey_sublist f s.resourceAcquiredBy).subset hp)

/-- `acquire` preserves the invariant. -/
theorem acquire_inv (s : ServerState) (env : SysEnv) (S : Session) (N : String)
    (h : Inv s) (r : LockCommandResult) (m : String) (t : ServerState)
    (hacq : acquire s env S N = some (r, m, t)) : Inv t := by
  cases hk : lookup N s.knownResources with
  | some f =>
    cases hr : lookup f s.resourceAcquiredBy with
    | none => simp [acquire, hk, shortAcquire, hr] at hacq
    | some owner =>
      by_cases ho : owner = S
      · subst ho
        simp [acquire, hk, shortAcquire, hr] at hacq
        obtain ⟨h7, h8, h9⟩ := hacq
        subst h9
        exact h
      · simp [acquire, hk, shortAcquire, hr, ho] at hacq
        obtain ⟨h7, h8, h9⟩ := hacq
        subst h9
        exact h
  | none =>
    cases ho : env.openErr with
    | some m0 =>
      simp [acquire, hk, ho] at hacq
      obtain ⟨h7, h8, h9⟩ := hacq
      subst h9
      exact h
    | none =>
      cases hl : env.lockErr with
      | some e =>
        cases e with
        | errno n msg =>
          by_cases hn : n = EAGAIN ∨ n = EACCES
          · simp [acquire, hk, ho, hl, hn, closeHandle, createFile] at hacq
            obtain ⟨h7, h8, h9⟩ := hacq
            subst h9
            exact inv_of_eq s _ h rfl rfl (Nat.le_succ _)
          · simp [acquire, hk, ho, hl, hn, SysErr.message, closeHandle,
              createFile] at hacq
            obtain ⟨h7, h8, h9⟩ := hacq
            subst h9
            exact inv_of_eq s _ h rfl rfl (Nat.le_succ _)
        | other msg =>
          simp [acquire, hk, ho, hl, closeHandle, createFile] at hacq
          obtain ⟨h7, h8, h9⟩ := hacq
          subst h9
          exact inv_of_eq s _ h rfl rfl (Nat.le_succ _)
      | none =>
        cases hw : env.writeErr with
        | some m0 =>
          simp [acquire, hk, ho, hl, hw, closeHandle, createFile] at hacq
          obtain ⟨h7, h8, h9⟩ := hacq
          subst h9
          exact inv_of_eq s _ h rfl rfl (Nat.le_succ _)
        | none =>
          simp [acquire, hk, ho, hl, hw, closeHandle, createFile] at hacq
          obtain ⟨h7, h8, h9⟩ := hacq
          subst h9
          exact inv_insert s S N h hk

/-- `release` preserves the invariant. -/
theorem release_inv (s : ServerState) (env : SysEnv) (S : Session) (N : String)
    (h : Inv s) (r : LockCommandResult) (m : String) (t : ServerState)
    (hrel : release s env S N = some (r, m, t)) : Inv t := by
  cases hk : lookup N s.knownResources with
  | none =>
    simp [release, hk] at hrel
    obtain ⟨h7, h8, h9⟩ := hrel
    subst h9
    exact h
  | some f =>
    cases hr : lookup f s.resourceAcquiredBy with
    | none => simp [release, hk, hr] at hrel
    | some owner =>
      by_cases ho : owner = S
      · subst ho
        cases hu : env.unlockErr with
        | some m0 =>
          simp [release, hk, hr, hu] at hrel
          obtain ⟨h7, h8, h9⟩ := hrel
          subst h9
          exact h
        | none =>
          cases hrm : env.removeErr with
          | some m0 =>
            simp [release, hk, hr, hu, hrm, closeHandle] at hrel
            obtain ⟨h7, h8, h9⟩ := hrel
            subst h9
            exact inv_erase s f N h hk
          | none =>
            simp [release, hk, hr, hu, hrm, closeHandle] at hrel
            obtain ⟨h7, h8, h9⟩ := hrel
            subst h9
            exact inv_erase s f N h hk
      · simp [release, hk, hr, ho] at hrel
        obtain ⟨h7, h8, h9⟩ := hrel
        subst h9
        exact h

/-- `verifyOwnership` preserves the invariant. -/
theorem verify_inv (s : ServerState) (env : SysEnv) (S : Session) (N : String)
    (h : Inv s) (r : LockCommandResult) (m : String) (t : ServerState)
    (hv : verifyOwnership s env S N = some (r, m, t)) : Inv t := by
  cases hk : lookup N s.knownResources with
  | none =>
    simp [verifyOwnership, hk] at hv
    obtain ⟨h7, h8, h9⟩ := hv
    subst h9
    exact h
  | some f =>
    cases hr : lookup f s.resourceAcquiredBy with
    | none => simp [verifyOwnership, hk, hr] at hv
    | some owner =>
      by_cases ho : owner = S
      · subst ho
        cases hl : env.lockErr with
        | none =>
          simp [verifyOwnership, hk, hr, hl] at hv
          obtain ⟨h7, h8, h9⟩ := hv
          subst h9
          exact inv_of_eq s _ h rfl rfl (Nat.le_refl _)
        | some e =>
          cases e with
          | errno n msg =>
            by_cases hn : n = EAGAIN ∨ n = EACCES
            · simp [verifyOwnership, hk, hr, hl, hn] at hv
              obtain ⟨h7, h8, h9⟩ := hv
              subst h9
              exact h
            · simp [verifyOwnership, hk, hr, hl, hn, SysErr.message] at hv
              obtain ⟨h7, h8, h9⟩ := hv
              subst h9
              exact h
          | other msg =>
            simp [verifyOwnership, hk, hr, hl] at hv
            obtain ⟨h7, h8, h9⟩ := hv
            subst h9
            exact h
      · simp [verifyOwnership, hk, hr, ho] at hv
        obtain ⟨h7, h8, h9⟩ := hv
        subst h9
        exact h

/-- The fields of the state returned by `peek`: registry maps and disk
are unchanged, the counter does not decrease. -/
theorem peek_state_fields (s : ServerState) (env : SysEnv) (N : String) :
    (peek s env N).2.2.2.knownResources = s.knownResources ∧
    (peek s env N).2.2.2.resourceAcquiredBy = s.resourceAcquiredBy ∧
    (peek s env N).2.2.2.filesOnDisk = s.filesOnDisk ∧
    s.nextHandle ≤ (peek s env N).2.2.2.nextHandle := by
  cases hk : lookup N s.knownResources with
  | some f => simp [peek, hk]
  | none =>
    by_cases hf : N ∈ s.filesOnDisk
    · cases ho : env.openErr with
      | some m => simp [peek, hk, hf, ho]
      | none =>
        cases hp : env.probeErr with
        | some m => simp [peek, hk, hf, ho, hp, closeHandle, Nat.le_succ]
        | none => simp [peek, hk, hf, ho, hp, closeHandle, Nat.le_succ]
    · simp [peek, hk, hf]

/-- `peek` preserves the invariant. -/
theorem peek_inv (s : ServerState) (env : SysEnv) (N : String) (h : Inv s) :
    Inv (peek s env N).2.2.2 := by
  obtain ⟨e1, e2, e3, e4⟩ := peek_state_fields s env N
  exact inv_of_eq s _ h e1 e2 e4

/-- `ProcessDisconnect` preserves the invariant. -/
theorem disconnect_inv (s : ServerState) (c : Session) (h : Inv s) :
    Inv (ProcessDisconnect s c) := by
  obtain ⟨h1, h2, h3, h4, h5, h6⟩ := h
  have hkr : (ProcessDisconnect s c).knownResources =
      s.knownResources.filter (fun p => decide (p.2 ∉
        (s.resourceAcquiredBy.filter (fun q => decide (q.2 = c))).map Prod.fst)) := by
    simp only [ProcessDisconnect]
    exact foldl_dropHandle_eq_filter _ _ h2
  have hrab : (ProcessDisconnect s c).resourceAcquiredBy =
      s.resourceAcquiredBy.filter (fun q => decide (q.2 ≠ c)) := rfl
  refine ⟨?_, ?_, ?_, ?_, ?_, ?_⟩
  · rw [hkr]
    exact h1.sublist ((List.filter_sublist s.knownResources).map Prod.fst)
  · rw [hkr]
    exact h2.sublist ((List.filter_sublist s.knownResources).map Prod.snd)
  · rw [hrab]
    exact h3.sublist ((List.filter_sublist s.resourceAcquiredBy).map Prod.fst)
  · rw [hkr, hrab]
    intro p hp
    rcases List.mem_filter.mp hp with ⟨hpmem, hpdec⟩
    simp only [decide_eq_true_iff] at hpdec
    have hiss : (lookup p.2 s.resourceAcquiredBy).isSome = true := h4 p hpmem
    cases hd : lookup p.2 s.resourceAcquiredBy with
    | none =>
      rw [hd] at hiss
      simp at hiss
    | some d =>
      have hdc : d ≠ c := by
        intro he
        exact hpdec ((mem_filesToDrop_iff s c h3 p.2).mpr (he ▸ hd))
      rw [lookup_filter_some hd (by simpa using hdc)]
      rfl
  · rw [hkr]
    intro p hp
    exact h5 p (List.mem_filter.mp hp).1
  · rw [hrab]
    intro p hp
    exact h6 p (List.mem_filter.mp hp).1

/-- Under the invariant, `acquire` never hits the panic branch. -/
theorem acquire_isSome (s : ServerState) (env : SysEnv) (S : Session) (N : String)
    (h : Inv s) : (acquire s env S N).isSome = true := by
  obtain ⟨h1, h2, h3, h4, h5, h6⟩ := h
  cases hk : lookup N s.knownResources with
  | some f =>
    have hiss : (lookup f s.resourceAcquiredBy).isSome = true :=
      h4 (N, f) (mem_of_lookup_eq_some hk)
    cases hr : lookup f s.resourceAcquiredBy with
    | none =>
      rw [hr] at hiss
      simp at hiss
    | some owner =>
      by_cases ho : owner = S
      · subst ho
        simp [acquire, hk, shortAcquire, hr]
      · simp [acquire, hk, shortAcquire, hr, ho]
  | none =>
    cases ho : env.openErr with
    | some m => simp [acquire, hk, ho]
    | none =>
      cases hl : env.lockErr with
      | some e =>
        cases e with
        | errno n msg =>
          by_cases hn : n = EAGAIN ∨ n = EACCES
          · simp [acquire, hk, ho, hl, hn]
          · simp [acquire, hk, ho, hl, hn]
        | other msg => simp [acquire, hk, ho, hl]
      | none =>
        cases hw : env.writeErr with
        | some m => simp [acquire, hk, ho, hl, hw]
        | none => simp [acquire, hk, ho, hl, hw]

/-- Under the invariant, `release` never hits its panic branches. -/
theorem release_isSome (s : ServerState) (env : SysEnv) (S : Session) (N : String)
    (h : Inv s) : (release s env S N).isSome = true := by
  obtain ⟨h1, h2, h3, h4, h5, h6⟩ := h
  cases hk : lookup N s.knownResources with
  | none => simp [release, hk]
  | some f =>
    have hiss : (lookup f s.resourceAcquiredBy).isSome = true :=
      h4 (N, f) (mem_of_lookup_eq_some hk)
    cases hr : lookup f s.resourceAcquiredBy with
    | none =>
      rw [hr] at hiss
      simp at hiss
    | some owner =>
      by_cases ho : owner = S
      · subst ho
        cases hu : env.unlockErr with
        | some m => simp [release, hk, hr, hu]
        | none =>
          cases hrm : env.removeErr with
          | some m => simp [release, hk, hr, hu, hrm]
          | none => simp [release, hk, hr, hu, hrm]
      · simp [release, hk, hr, ho]

/-- Under the invariant, `verifyOwnership` never hits its panic
branches. -/
theorem verify_isSome (s : ServerState) (env : SysEnv) (S : Session) (N : String)
    (h : Inv s) : (verifyOwnership s env S N).isSome = true := by
  obtain ⟨h1, h2, h3, h4, h5, h6⟩ := h
  cases hk : lookup N s.knownResources with
  | none => simp [verifyOwnership, hk]
  | some f =>
    have hiss : (lookup f s.resourceAcquiredBy).isSome = true :=
      h4 (N, f) (mem_of_lookup_eq_some hk)
    cases hr : lookup f s.resourceAcquiredBy with
    | none =>
      rw [hr] at hiss
      simp at hiss
    | some owner =>
      by_cases ho : owner = S
      · subst ho
        cases hl : env.lockErr with
        | none => simp [verifyOwnership, hk, hr, hl]
        | some e =>
          cases e with
          | errno n msg =>
            by_cases hn : n = EAGAIN ∨ n = EACCES
            · simp [verifyOwnership, hk, hr, hl, hn]
            · simp [verifyOwnership, hk, hr, hl, hn]
          | other msg => simp [verifyOwnership, hk, hr, hl]
      · simp [verifyOwnership, hk, hr, ho]

/-- `ProcessRequest` preserves the invariant. -/
theorem processRequest_inv (s : ServerState) (env : SysEnv) (client : Session)
    (req : LockRequest) (resp : LockResponse) (t : ServerState) (h : Inv s)
    (hpr : ProcessRequest s env client req = some (resp, t)) : Inv t := by
  by_cases hname : validLockName req.LockName = true
  · by_cases hA : req.Command = Acquire
    · cases hacq : acquire s env client req.LockName with
      | none => simp [ProcessRequest, hname, hA, Peek, Acquire, Release, Verify, hacq] at hpr
      | some p =>
        obtain ⟨r, m, t2⟩ := p
        simp [ProcessRequest, hname, hA, Peek, Acquire, Release, Verify, hacq] at hpr
        obtain ⟨h7, h9⟩ := hpr
        subst h9
        exact acquire_inv s env client req.LockName h r m t2 hacq
    · by_cases hR : req.Command = Release
      · cases hrel : release s env client req.LockName with
        | none => simp [ProcessRequest, hname, hA, hR, Peek, Acquire, Release, Verify, hrel] at hpr
        | some p =>
          obtain ⟨r, m, t2⟩ := p
          simp [ProcessRequest, hname, hA, hR, Peek, Acquire, Release, Verify, hrel] at hpr
          obtain ⟨h7, h9⟩ := hpr
          subst h9
          exact release_inv s env client req.LockName h r m t2 hrel
      · by_cases hP : req.Command = Peek
        · simp [ProcessRequest, hname, hA, hR, hP, Peek, Acquire, Release,
            Verify] at hpr
          obtain ⟨h7, h9⟩ := hpr
          subst h9
          exact peek_inv s env req.LockName h
        · by_cases hV : req.Command = Verify
          · cases hv : verifyOwnership s env client req.LockName with
            | none => simp [ProcessRequest, hname, hA, hR, hP, hV, Peek, Acquire, Release, Verify, hv] at hpr
            | some p =>
              obtain ⟨r, m, t2⟩ := p
              simp [ProcessRequest, hname, hA, hR, hP, hV, Peek, Acquire, Release, Verify, hv] at hpr
              obtain ⟨h7, h9⟩ := hpr
              subst h9
              exact verify_inv s env client req.LockName h r m t2 hv
          · simp only [Acquire] at hA
            simp only [Release] at hR
            simp only [Peek] at hP
            simp only [Verify] at hV
            simp [ProcessRequest, hname, hA, hR, hP, hV, Peek, Acquire,
              Release, Verify] at hpr
            obtain ⟨h7, h9⟩ := hpr
            subst h9
            exact h
  · simp only [Bool.not_eq_true] at hname
    simp [ProcessRequest, hname] at hpr
    obtain ⟨h7, h9⟩ := hpr
    subst h9
    exact h

/-- Under the invariant, `ProcessRequest` never panics. -/
theorem processRequest_isSome (s : ServerState) (env : SysEnv) (client : Session)
    (req : LockRequest) (h : Inv s) :
    (ProcessRequest s env client req).isSome = true := by
  by_cases hname : validLockName req.LockName = true
  · by_cases hA : req.Command = Acquire
    · have hsome := acquire_isSome s env client req.LockName h
      cases hacq : acquire s env client req.LockName with
      | none =>
        rw [hacq] at hsome
        simp at hsome
      | some p =>
        obtain ⟨r, m, t2⟩ := p
        simp [ProcessRequest, hname, hA, Peek, Acquire, Release, Verify, hacq]
    · by_cases hR : req.Command = Release
      · have hsome := release_isSome s env client req.LockName h
        cases hrel : release s env client req.LockName with
        | none =>
          rw [hrel] at hsome
          simp at hsome
        | some p =>
          obtain ⟨r, m, t2⟩ := p
          simp [ProcessRequest, hname, hA, hR, Peek, Acquire, Release, Verify, hrel]
      · by_cases hP : req.Command = Peek
        · simp [ProcessRequest, hname, hA, hR, hP, Peek, Acquire, Release,
            Verify]
        · by_cases hV : req.Command = Verify
          · have hsome := verify_isSome s env client req.LockName h
            cases hv : verifyOwnership s env client req.LockName with
            | none =>
              rw [hv] at hsome
              simp at hsome
            | some p =>
              obtain ⟨r, m, t2⟩ := p
              simp [ProcessRequest, hname, hA, hR, hP, hV, Peek, Acquire, Release, Verify, hv]
          · simp only [Acquire] at hA
            simp only [Release] at hR
            simp only [Peek] at hP
            simp only [Verify] at hV
            simp [ProcessRequest, hname, hA, hR, hP, hV, Peek, Acquire,
              Release, Verify]
  · simp only [Bool.not_eq_true] at hname
    simp [ProcessRequest, hname]

/-- One transition of the daemon: a processed request (panics do not
produce a next state) or a client disconnect. -/
inductive Step : ServerState → ServerState → Prop where
  | request (env : SysEnv) (client : Session) (req : LockRequest)
      (resp : LockResponse) (s t : ServerState) :
      ProcessRequest s env client req = some (resp, t) → Step s t
  | disconnect (client : Session) (s : ServerState) :
      Step s (ProcessDisconnect s client)

/-- States reachable from the freshly started daemon. -/
inductive Reachable : ServerState → Prop where
  | init : Reachable initialState
  | step (s t : ServerState) : Reachable s → Step s t → Reachable t

theorem step_inv (s t : ServerState) (h : Inv s) (hst : Step s t) : Inv t := by
  cases hst with
  | request env client req resp s2 t2 hpr =>
    exact processRequest_inv _ env client req resp _ h hpr
  | disconnect client s2 => exact disconnect_inv _ client h

/-- C10: in every state reachable from the empty registry the
back-reference invariant holds, and consequently `ProcessRequest`
always returns a response — the
`BUG: missing resource acquired by record` panic branches of
`shortAcquire` (acquire), `release` and `verifyOwnership` (modelled as
the `none` result) are never taken, for any command, session and
system-call environment. -/
theorem reachable_no_panic (s : ServerState) (h : Reachable s) :
    Inv s ∧ ∀ (env : SysEnv) (client : Session) (req : LockRequest),
      (ProcessRequest s env client req).isSome = true := by
  have hinv : Inv s := by
    induction h with
    | init => exact inv_initial
    | step s2 t2 hs hstep ih => exact step_inv s2 t2 ih hstep
  exact ⟨hinv, fun env client req => processRequest_isSome s env client req hinv⟩

/-- Witness for C10: from the initial state, an Acquire request is
answered without panicking. -/
theorem reachable_no_panic_witness :
    (ProcessRequest initialState SysEnv.ok 0 ⟨0, 0, 2, "a"⟩).isSome = true :=
  (reachable_no_panic initialState Reachable.init).2 SysEnv.ok 0 ⟨0, 0, 2, "a"⟩

end Distrilock
